import Mathlib

/-!
Verification of the core data pipeline of `ladybug-charts`.

The development shallowly embeds, from the source of the repository:

* `discontinuous_to_continuous` (src/ladybug_charts/_helper.py, lines 15-49):
  the Gap-Filler turning a sparse hourly series into an 8760-slot continuous
  series plus the pre-fill [min, max] range;
* `get_monthly_values` (src/ladybug_charts/_helper.py, lines 171-183):
  the 12 x 24 reshaping of a monthly-per-hour collection;
* the wind-rose Binner inside `wind_rose`
  (src/ladybug_charts/to_figure.py, lines 957-1097): the month/hour filter,
  the fixed speed bins, the 16 compass direction bins, the calm column and
  the percentage frequency table.

Numeric values are modelled as rationals; Python `None` entries are `Option`.
-/

namespace LadybugCharts

/-- Ladybug `AnalysisPeriod`: the fields relevant to this repository.
`AnalysisPeriod()` with no arguments is the default full year. -/
structure AnalysisPeriod where
  st_month : Nat
  st_day : Nat
  st_hour : Nat
  end_month : Nat
  end_day : Nat
  end_hour : Nat
  timestep : Nat
  is_leap_year : Bool
deriving DecidableEq, Repr

/-- `AnalysisPeriod()`: the default full-year period (Jan 1, hour 0 through
Dec 31, hour 23, timestep 1, non-leap). -/
def AnalysisPeriod.default : AnalysisPeriod :=
  ⟨1, 1, 0, 12, 31, 23, 1, false⟩

/-- Ladybug `Header`: data type, unit, analysis period and metadata.
The data type and the metadata dictionary are kept abstract as strings /
association lists; the Gap-Filler only passes them through. -/
structure Header where
  data_type : String
  unit : String
  analysis_period : AnalysisPeriod
  metadata : List (String × String)
deriving DecidableEq, Repr

/-- Ladybug `HourlyDiscontinuousCollection`: a header, the integral
hours-of-year of its datetimes (`[dt.hoy for dt in data.datetimes]`), and the
parallel list of values. -/
structure HourlyDiscontinuousCollection where
  header : Header
  hoys : List Nat
  values : List ℚ
deriving DecidableEq, Repr

/-- Ladybug `HourlyContinuousCollection`: a header and a value per hour of
year; `none` models Python `None` (an absent slot). -/
structure HourlyContinuousCollection where
  header : Header
  values : List (Option ℚ)
deriving DecidableEq, Repr

/-- One insertion step of a Python `dict`: an existing key is overwritten in
place, a new key is appended at the end (insertion order is preserved). -/
def dictInsert (d : List (Nat × ℚ)) (kv : Nat × ℚ) : List (Nat × ℚ) :=
  if d.any (fun p => p.1 == kv.1) then
    d.map (fun p => if p.1 == kv.1 then (p.1, kv.2) else p)
  else
    d ++ [kv]

/-- Python `dict(pairs)`: fold the pairs into an insertion-ordered,
last-binding-wins association list. -/
def dictOfPairs (ps : List (Nat × ℚ)) : List (Nat × ℚ) :=
  ps.foldl dictInsert []

/-- The message of the `ValueError` raised by Python `min`/`max` on an empty
sequence (the `EmptySeries`-class error of the spec). -/
def emptySeriesMsg : String := "ValueError: min() arg is an empty sequence"

/-- `hoy_val = dict(zip(hoys, data.values))` from `discontinuous_to_continuous`. -/
def hoyVal (data : HourlyDiscontinuousCollection) : List (Nat × ℚ) :=
  dictOfPairs (data.hoys.zip data.values)

/-- Lines 34-37 of src/ladybug_charts/_helper.py in isolation: the
`data_range = [min(hoy_val.values()), max(hoy_val.values())]` computation,
performed on the raw dictionary before any absent slot exists.  The Python
`min`/`max` builtins raise `ValueError` on an empty sequence. -/
def series_range (data : HourlyDiscontinuousCollection) : Except String (List ℚ) :=
  match (hoyVal data).map Prod.snd with
  | [] => Except.error emptySeriesMsg
  | v :: vs => Except.ok [vs.foldl min v, vs.foldl max v]

/-- `discontinuous_to_continuous` (src/ladybug_charts/_helper.py, lines 15-49):
build `hoy_val = dict(zip(hoys, values))`; compute the range from the present
values; emit, for `count in range(8760)`, `hoy_val[count]` when present and
`None` otherwise; rebuild the header with the same data type, unit and
metadata but a fresh default `AnalysisPeriod()`. -/
def discontinuous_to_continuous (data : HourlyDiscontinuousCollection) :
    Except String (HourlyContinuousCollection × List ℚ) :=
  let hoy_val := hoyVal data
  match hoy_val.map Prod.snd with
  | [] => Except.error emptySeriesMsg
  | v :: vs =>
    let data_range := [vs.foldl min v, vs.foldl max v]
    let values := (List.range 8760).map (fun count => hoy_val.lookup count)
    let header : Header :=
      ⟨data.header.data_type, data.header.unit, AnalysisPeriod.default,
        data.header.metadata⟩
    Except.ok (⟨header, values⟩, data_range)

/-- `get_monthly_values` (src/ladybug_charts/_helper.py, lines 171-183):
`for i in range(24, 312, 24): values.append([data.values[j] for j in
range(i-24, i)])`.  `range(24, 312, 24)` enumerates `24 * (k + 1)` for
`k in range(12)`.  Indexing is total here with default `0`; a valid
`MonthlyPerHourCollection` has exactly 288 values, so the default is never
consulted on valid inputs. -/
def get_monthly_values (values : List ℚ) : List (List ℚ) :=
  (List.range 12).map (fun k =>
    (List.range 24).map (fun o => values.getD (24 * (k + 1) - 24 + o) 0))

/-- The month/hour window of `wind_rose.analysis_period`
(src/ladybug_charts/to_figure.py, lines 987-990). -/
structure Window where
  st_month : Nat
  end_month : Nat
  st_hour : Nat
  end_hour : Nat
deriving DecidableEq, Repr

/-- The invariants a Ladybug `AnalysisPeriod` guarantees for the fields the
wind-rose filter reads: months in 1..12, hours in 0..23. -/
def validWindow (w : Window) : Prop :=
  1 ≤ w.st_month ∧ w.st_month ≤ 12 ∧ 1 ≤ w.end_month ∧ w.end_month ≤ 12 ∧
    w.st_hour ≤ 23 ∧ w.end_hour ≤ 23

/-- The calendar month (1..12) of a 0-based day of a non-leap year, as carried
by the `month` column of the 2019-anchored dataframe
(src/ladybug_charts/_to_dataframe.py, lines 34-58). -/
def monthOfDoy (d : Nat) : Nat :=
  if d < 31 then 1
  else if d < 59 then 2
  else if d < 90 then 3
  else if d < 120 then 4
  else if d < 151 then 5
  else if d < 181 then 6
  else if d < 212 then 7
  else if d < 243 then 8
  else if d < 273 then 9
  else if d < 304 then 10
  else if d < 334 then 11
  else 12

/-- The `month` column at dataframe row `t` (hour of year 0..8759). -/
def monthOfHoy (t : Nat) : Nat := monthOfDoy (t / 24)

/-- The `hour` column at dataframe row `t`. -/
def hourOfHoy (t : Nat) : Nat := t % 24

/-- The month filter (src/ladybug_charts/to_figure.py, lines 992-995):
`start_month <= end_month` keeps months in the closed range, otherwise the
wrapped filter keeps `month <= end_month or month >= start_month`. -/
def monthKeep (w : Window) (m : Nat) : Bool :=
  if w.st_month ≤ w.end_month then w.st_month ≤ m && m ≤ w.end_month
  else m ≤ w.end_month || w.st_month ≤ m

/-- The hour filter (src/ladybug_charts/to_figure.py, lines 996-999),
inclusive on both ends and wrapping exactly like the month filter. -/
def hourKeep (w : Window) (h : Nat) : Bool :=
  if w.st_hour ≤ w.end_hour then w.st_hour ≤ h && h ≤ w.end_hour
  else h ≤ w.end_hour || w.st_hour ≤ h

/-- The rows of the 8760-row dataframe surviving the month filter and then the
hour filter (the two successive `df.loc` steps). -/
def filteredIdx (w : Window) : List Nat :=
  ((List.range 8760).filter (fun t => monthKeep w (monthOfHoy t))).filter
    (fun t => hourKeep w (hourOfHoy t))

/-- `pd.cut(speed, bins=[-1, 0.5, 1.5, 3.3, 5.5, 7.9, 10.7, 13.8, 17.1, 20.7,
inf], right=True)` (src/ladybug_charts/to_figure.py, lines 1001 and
1016-1021): the 0-based index of the right-closed speed bin, `none` when the
value lies in no bin (at or below -1).  Bin 0, `(-1, 0.5]`, is the one
`_speed_labels` labels `"calm"`. -/
def spdBinIdx (v : ℚ) : Option Nat :=
  if v ≤ -1 then none
  else if v ≤ 1/2 then some 0
  else if v ≤ 3/2 then some 1
  else if v ≤ 33/10 then some 2
  else if v ≤ 11/2 then some 3
  else if v ≤ 79/10 then some 4
  else if v ≤ 107/10 then some 5
  else if v ≤ 69/5 then some 6
  else if v ≤ 171/10 then some 7
  else if v ≤ 207/10 then some 8
  else some 9

/-- `pd.cut(direction, bins=np.arange(-22.5/2, 370, 22.5), right=False)`
(src/ladybug_charts/to_figure.py, lines 1012 and 1022-1026):
`np.arange(-11.25, 370, 22.5)` yields the seventeen edges `-11.25 + 22.5*i`
for `i = 0..16` (the next value, 371.25, is at or past the stop 370), so the
left-closed bins are `[-11.25, 11.25), [11.25, 33.75), ..., [326.25, 348.75)`
with centers `0, 22.5, ..., 337.5`.  A value outside `[-11.25, 348.75)` falls
in no bin (`none`, pandas `NaN`).  Edges are written as quarters:
`-11.25 = -45/4`, `11.25 = 45/4`, ..., `348.75 = 1395/4`. -/
def dirBinIdx (v : ℚ) : Option Nat :=
  if v < -45/4 then none
  else if v < 45/4 then some 0
  else if v < 135/4 then some 1
  else if v < 225/4 then some 2
  else if v < 315/4 then some 3
  else if v < 405/4 then some 4
  else if v < 495/4 then some 5
  else if v < 585/4 then some 6
  else if v < 675/4 then some 7
  else if v < 765/4 then some 8
  else if v < 855/4 then some 9
  else if v < 945/4 then some 10
  else if v < 1035/4 then some 11
  else if v < 1125/4 then some 12
  else if v < 1215/4 then some 13
  else if v < 1305/4 then some 14
  else if v < 1395/4 then some 15
  else none

/-- `total_count = df.shape[0]` after filtering
(src/ladybug_charts/to_figure.py, line 1014). -/
def totalCount (w : Window) : Nat := (filteredIdx w).length

/-- `calm_count = df.query("wind_speed == 0").shape[0]`
(src/ladybug_charts/to_figure.py, line 1015): filtered observations whose
speed is exactly zero. -/
def calmCount (speed : Nat → ℚ) (w : Window) : Nat :=
  (filteredIdx w).countP (fun t => speed t == 0)

/-- The grouped count of the cell at direction-bin row `i` (0..15) and
speed-bin column `j` (0..9): rows whose speed and direction both fall in the
respective bins (`groupby(...).size().unstack().fillna(0)`,
src/ladybug_charts/to_figure.py, lines 1028-1031).  `observed=False` groupby
on the two categoricals keeps every one of the 16 x 10 cells, empty cells
counting 0; rows whose direction bin is `NaN` are dropped. -/
def cellCount (speed dir : Nat → ℚ) (w : Window) (i j : Nat) : Nat :=
  (filteredIdx w).countP
    (fun t => spdBinIdx (speed t) == some j && dirBinIdx (dir t) == some i)

/-- The number of rows of the unstacked frame: one per direction-bin
category, i.e. `df.shape[0] = 16` inside `assign(calm=...)`. -/
def numDirRows : Nat := 16

/-- The final frequency-table cell at direction row `i`, speed column `j`
(src/ladybug_charts/to_figure.py, lines 1016-1035).  Column 0 carries the
label `"calm"`, so `assign(calm=calm_count / df.shape[0])` overwrites it with
`calm_count / 16` in every row; `applymap` then divides every cell by
`total_count` and scales to percent.  A zero `total_count` makes the float
division yield `inf`/`NaN`, modelled as `none`. -/
def roseCell (speed dir : Nat → ℚ) (w : Window) (i j : Nat) : Option ℚ :=
  if totalCount w = 0 then none
  else if j = 0 then
    some ((calmCount speed w : ℚ) / numDirRows / totalCount w * 100)
  else
    some ((cellCount speed dir w i j : ℚ) / totalCount w * 100)

/-- The sum of the whole 16-row, 10-column percentage table (the calm column
included). -/
def tableSum (speed dir : Nat → ℚ) (w : Window) : ℚ :=
  ∑ i ∈ Finset.range 16, ∑ j ∈ Finset.range 10,
    (roseCell speed dir w i j).getD 0

/-- The filtered observations the table actually accounts for: the calm ones
(speed exactly 0, counted through the calm column) and those with speed
strictly above 0.5 whose direction falls inside `[-11.25, 348.75)`.
Observations with speed in `(0, 0.5]` sit in the overwritten calm column and
observations with direction in `[348.75, 360]` fall in no direction bin, so
neither reaches the final table. -/
def retainedCount (speed dir : Nat → ℚ) (w : Window) : Nat :=
  (filteredIdx w).countP (fun t =>
    speed t == 0 ||
      (decide (1/2 < speed t) && decide (-45/4 ≤ dir t) &&
        decide (dir t < 1395/4)))

/-- The full-year, full-day window of a default `AnalysisPeriod`. -/
def fullWindow : Window := ⟨1, 12, 0, 23⟩

/-- A sample header carrying a deliberately non-default analysis period. -/
def sampleHeader : Header :=
  ⟨"Temperature", "C", ⟨6, 1, 0, 7, 31, 23, 1, false⟩, [("city", "X")]⟩

/-- The concrete scenario of the spec: hour 0 holds 10.0, hour 100 holds
20.0. -/
def sampleSparse : HourlyDiscontinuousCollection :=
  ⟨sampleHeader, [0, 100], [10, 20]⟩

/-- The 288-value ramp 0, 1, ..., 287. -/
def ramp288 : List ℚ := List.map (fun (n : ℕ) => (n : ℚ)) (List.range 288)

/-- Proof scaffolding (not from the source): the 0-based day of a non-leap
year on which calendar month `m` begins. -/
def monthStartDoy (m : Nat) : Nat :=
  match m with
  | 1 => 0 | 2 => 31 | 3 => 59 | 4 => 90 | 5 => 120 | 6 => 151 | 7 => 181
  | 8 => 212 | 9 => 243 | 10 => 273 | 11 => 304 | 12 => 334 | _ => 0

/-! ### General list lemmas -/

theorem countP_or_disjoint {α : Type} (p q : α → Bool) :
    ∀ l : List α, (∀ x ∈ l, ¬(p x = true ∧ q x = true)) →
      l.countP (fun x => p x || q x) = l.countP p + l.countP q := by
  intro l
  induction l with
  | nil => intro _; simp
  | cons a l ih =>
    intro h
    have ha := h a (List.mem_cons_self a l)
    have hl := ih (fun x hx => h x (List.mem_cons_of_mem a hx))
    simp only [List.countP_cons, hl]
    cases hpa : p a <;> cases hqa : q a <;> simp_all <;> omega

theorem countP_mem_range (l : List Nat) (n : Nat) (hnd : l.Nodup)
    (hlt : ∀ x ∈ l, x < n) :
    (List.range n).countP (fun i => decide (i ∈ l)) = l.length := by
  induction l with
  | nil => simp
  | cons a l ih =>
    have hnd' := (List.nodup_cons.mp hnd).2
    have hna := (List.nodup_cons.mp hnd).1
    have step : (List.range n).countP (fun i => decide (i ∈ a :: l)) =
        (List.range n).countP (fun i => (i == a) || decide (i ∈ l)) := by
      refine List.countP_congr (fun x _ => ?_)
      simp [List.mem_cons, Bool.or_eq_true, beq_iff_eq, decide_eq_true_eq]
    rw [step, countP_or_disjoint]
    · have h1 : (List.range n).countP (fun i => i == a) = 1 := by
        rw [← List.count]
        exact List.count_eq_one_of_mem (List.nodup_range n)
          (List.mem_range.mpr (hlt a (List.mem_cons_self a l)))
      rw [h1, ih hnd' (fun x hx => hlt x (List.mem_cons_of_mem a hx))]
      simp only [List.length_cons]
      omega
    · intro x _ hx
      rcases hx with ⟨h1, h2⟩
      exact hna (beq_iff_eq.mp h1 ▸ of_decide_eq_true h2)

theorem foldl_min_mem (vs : List ℚ) : ∀ v : ℚ, vs.foldl min v ∈ v :: vs := by
  induction vs with
  | nil => simp
  | cons a l ih =>
    intro v
    rw [List.foldl_cons]
    rcases min_choice v a with h1 | h1 <;> rw [h1]
    · have h := ih v
      simp only [List.mem_cons] at h ⊢
      tauto
    · have h := ih a
      simp only [List.mem_cons] at h ⊢
      tauto

theorem foldl_min_le (vs : List ℚ) :
    ∀ v x : ℚ, x ∈ v :: vs → vs.foldl min v ≤ x := by
  induction vs with
  | nil => intro v x hx; simp at hx; simp [hx]
  | cons a l ih =>
    intro v x hx
    rw [List.foldl_cons]
    have hseed : l.foldl min (min v a) ≤ min v a :=
      ih (min v a) (min v a) (List.mem_cons_self _ _)
    simp only [List.mem_cons] at hx
    rcases hx with rfl | rfl | hx
    · exact le_trans hseed (min_le_left _ _)
    · exact le_trans hseed (min_le_right _ _)
    · exact ih (min v a) x (List.mem_cons_of_mem _ hx)

theorem foldl_max_mem (vs : List ℚ) : ∀ v : ℚ, vs.foldl max v ∈ v :: vs := by
  induction vs with
  | nil => simp
  | cons a l ih =>
    intro v
    rw [List.foldl_cons]
    rcases max_choice v a with h1 | h1 <;> rw [h1]
    · have h := ih v
      simp only [List.mem_cons] at h ⊢
      tauto
    · have h := ih a
      simp only [List.mem_cons] at h ⊢
      tauto

theorem le_foldl_max (vs : List ℚ) :
    ∀ v x : ℚ, x ∈ v :: vs → x ≤ vs.foldl max v := by
  induction vs with
  | nil => intro v x hx; simp at hx; simp [hx]
  | cons a l ih =>
    intro v x hx
    rw [List.foldl_cons]
    have hseed : max v a ≤ l.foldl max (max v a) :=
      ih (max v a) (max v a) (List.mem_cons_self _ _)
    simp only [List.mem_cons] at hx
    rcases hx with rfl | rfl | hx
    · exact le_trans (le_max_left _ _) hseed
    · exact le_trans (le_max_right _ _) hseed
    · exact ih (max v a) x (List.mem_cons_of_mem _ hx)

theorem getD_map_range {α : Type} (f : Nat → α) (d : α) {n s : Nat}
    (hs : s < n) : ((List.range n).map f).getD s d = f s := by
  rw [List.getD_eq_getElem?_getD, List.getElem?_map, List.getElem?_range hs]
  rfl

/-! ### Dictionary lemmas: with pairwise-distinct keys, building a Python
dict from a pair list keeps the pairs as they are, and lookup behaves as the
association-list lookup. -/

theorem dictInsert_of_fresh (d : List (Nat × ℚ)) (kv : Nat × ℚ)
    (h : kv.1 ∉ d.map Prod.fst) : dictInsert d kv = d ++ [kv] := by
  unfold dictInsert
  have : d.any (fun p => p.1 == kv.1) = false := by
    rw [List.any_eq_false]
    intro p hp hbeq
    exact h (List.mem_map.mpr ⟨p, hp, beq_iff_eq.mp hbeq⟩)
  simp [this]

theorem foldl_dictInsert_nodup :
    ∀ (ps acc : List (Nat × ℚ)), ((acc ++ ps).map Prod.fst).Nodup →
      ps.foldl dictInsert acc = acc ++ ps := by
  intro ps
  induction ps with
  | nil => intro acc _; simp
  | cons p ps ih =>
    intro acc h
    have hfresh : p.1 ∉ acc.map Prod.fst := by
      rw [List.map_append, List.nodup_append] at h
      intro hmem
      exact h.2.2 hmem (by simp)
    rw [List.foldl_cons, dictInsert_of_fresh acc p hfresh,
      ih (acc ++ [p]) (by simpa using h)]
    simp

theorem dictOfPairs_nodup_id (ps : List (Nat × ℚ))
    (h : (ps.map Prod.fst).Nodup) : dictOfPairs ps = ps := by
  unfold dictOfPairs
  simpa using foldl_dictInsert_nodup ps [] (by simpa using h)

theorem lookup_eq_none_of_not_mem (ps : List (Nat × ℚ)) (k : Nat)
    (h : k ∉ ps.map Prod.fst) : ps.lookup k = none := by
  induction ps with
  | nil => rfl
  | cons p ps ih =>
    simp only [List.map_cons, List.mem_cons] at h
    push_neg at h
    rcases p with ⟨a, b⟩
    rw [List.lookup_cons]
    have : (k == a) = false := beq_false_of_ne h.1
    simp only [this]
    exact ih h.2

theorem lookup_isSome_iff_mem (ps : List (Nat × ℚ)) (k : Nat) :
    (ps.lookup k).isSome = true ↔ k ∈ ps.map Prod.fst := by
  induction ps with
  | nil => simp [List.lookup]
  | cons p ps ih =>
    rcases p with ⟨a, b⟩
    rw [List.lookup_cons]
    by_cases hk : k = a
    · simp [hk]
    · have : (k == a) = false := beq_false_of_ne hk
      simp only [this, List.map_cons, List.mem_cons]
      rw [ih]
      simp [hk]

theorem lookup_get_of_nodup :
    ∀ (ps : List (Nat × ℚ)), (ps.map Prod.fst).Nodup →
      ∀ (n : Nat) (hn : n < ps.length),
        ps.lookup (ps.get ⟨n, hn⟩).1 = some (ps.get ⟨n, hn⟩).2 := by
  intro ps
  induction ps with
  | nil => intro _ n hn; simp at hn
  | cons p ps ih =>
    intro h n hn
    rcases p with ⟨a, b⟩
    match n with
    | 0 => simp [List.lookup_cons]
    | Nat.succ m =>
      have hm : m < ps.length := Nat.lt_of_succ_lt_succ hn
      have hget : ((a, b) :: ps).get ⟨m + 1, hn⟩ = ps.get ⟨m, hm⟩ := rfl
      rw [hget, List.lookup_cons]
      have hkey : (ps.get ⟨m, hm⟩).1 ≠ a := by
        intro heq
        have hmem : (ps.get ⟨m, hm⟩).1 ∈ ps.map Prod.fst :=
          List.mem_map.mpr ⟨ps.get ⟨m, hm⟩, List.get_mem _ _ _, rfl⟩
        rw [List.map_cons, List.nodup_cons] at h
        exact h.1 (heq ▸ hmem)
      have : ((ps.get ⟨m, hm⟩).1 == a) = false := beq_false_of_ne hkey
      simp only [this]
      exact ih (List.nodup_cons.mp (by simpa using h)).2 m hm

/-! ### Gap-Filler reduction lemmas -/

theorem hoyVal_eq_zip (data : HourlyDiscontinuousCollection)
    (hnd : data.hoys.Nodup) (hlen : data.hoys.length = data.values.length) :
    hoyVal data = data.hoys.zip data.values := by
  unfold hoyVal
  exact dictOfPairs_nodup_id _
    (by rw [List.map_fst_zip _ _ (le_of_eq hlen)]; exact hnd)

theorem d2c_spec (data : HourlyDiscontinuousCollection)
    (hnd : data.hoys.Nodup) (hlen : data.hoys.length = data.values.length)
    (v : ℚ) (vs : List ℚ) (hv : data.values = v :: vs) :
    discontinuous_to_continuous data =
      Except.ok
        (⟨⟨data.header.data_type, data.header.unit, AnalysisPeriod.default,
            data.header.metadata⟩,
          (List.range 8760).map
            (fun count => (data.hoys.zip data.values).lookup count)⟩,
         [vs.foldl min v, vs.foldl max v]) := by
  unfold discontinuous_to_continuous
  rw [hoyVal_eq_zip data hnd hlen]
  have hm : (data.hoys.zip data.values).map Prod.snd = data.values :=
    List.map_snd_zip _ _ (le_of_eq hlen.symm)
  rw [hv] at hm
  simp only [hv, hm]

theorem series_range_spec (data : HourlyDiscontinuousCollection)
    (hnd : data.hoys.Nodup) (hlen : data.hoys.length = data.values.length)
    (v : ℚ) (vs : List ℚ) (hv : data.values = v :: vs) :
    series_range data = Except.ok [vs.foldl min v, vs.foldl max v] := by
  unfold series_range
  rw [hoyVal_eq_zip data hnd hlen]
  have hm : (data.hoys.zip data.values).map Prod.snd = data.values :=
    List.map_snd_zip _ _ (le_of_eq hlen.symm)
  rw [hv] at hm
  simp only [hv, hm]

/-- C1: for every non-empty discontinuous hourly series with distinct slot
indices in [0, 8759], the Gap-Filler returns a continuous series of exactly
8760 slots where each present slot carries its input value, every other slot
is the absent sentinel `none`, exactly N slots are non-absent, and a complete
series (N = 8760) round-trips with every slot non-absent. -/
theorem gap_filler_completeness (data : HourlyDiscontinuousCollection)
    (hnd : data.hoys.Nodup)
    (hlt : ∀ h ∈ data.hoys, h < 8760)
    (hlen : data.hoys.length = data.values.length)
    (hne : data.values ≠ []) :
    ∃ out rng, discontinuous_to_continuous data = Except.ok (out, rng) ∧
      out.values.length = 8760 ∧
      (∀ (n : Nat) (hn : n < data.hoys.length),
        out.values.getD (data.hoys.get ⟨n, hn⟩) none =
          some (data.values.getD n 0)) ∧
      (∀ i < 8760, i ∉ data.hoys → out.values.getD i none = none) ∧
      out.values.countP (fun o => o.isSome) = data.hoys.length ∧
      (data.hoys.length = 8760 → ∀ i < 8760,
        (out.values.getD i none).isSome = true) := by
  obtain ⟨v, vs, hv⟩ : ∃ v vs, data.values = v :: vs := by
    cases hvv : data.values with
    | nil => exact absurd hvv hne
    | cons a l => exact ⟨a, l, rfl⟩
  have hkeys : (data.hoys.zip data.values).map Prod.fst = data.hoys :=
    List.map_fst_zip _ _ (le_of_eq hlen)
  refine ⟨_, _, d2c_spec data hnd hlen v vs hv, ?_, ?_, ?_, ?_, ?_⟩
  · simp
  · intro n hn
    have hslot : data.hoys.get ⟨n, hn⟩ < 8760 := hlt _ (List.get_mem _ _ _)
    dsimp only
    rw [getD_map_range _ _ hslot]
    have hn' : n < (data.hoys.zip data.values).length := by
      rw [List.length_zip]
      omega
    have hv' : n < data.values.length := hlen ▸ hn
    have hzip : (data.hoys.zip data.values).get ⟨n, hn'⟩ =
        (data.hoys.get ⟨n, hn⟩, data.values.get ⟨n, hv'⟩) := by
      simp [List.get_eq_getElem, List.getElem_zip]
    have hndk : ((data.hoys.zip data.values).map Prod.fst).Nodup := by
      rw [hkeys]; exact hnd
    have hlk := lookup_get_of_nodup _ hndk n hn'
    rw [hzip] at hlk
    dsimp only at hlk
    rw [hlk, List.getD_eq_getElem _ _ hv']
    simp [List.get_eq_getElem]
  · intro i _ hmem
    dsimp only
    rw [getD_map_range _ _ (by assumption)]
    exact lookup_eq_none_of_not_mem _ _ (by rw [hkeys]; exact hmem)
  · dsimp only
    rw [List.countP_map]
    have hcg : (List.range 8760).countP
          ((fun o : Option ℚ => o.isSome) ∘
            fun count => (data.hoys.zip data.values).lookup count) =
        (List.range 8760).countP (fun i => decide (i ∈ data.hoys)) := by
      refine List.countP_congr (fun x _ => ?_)
      simp only [Function.comp]
      have hiff := lookup_isSome_iff_mem (data.hoys.zip data.values) x
      rw [hkeys] at hiff
      rw [hiff]
      simp
    rw [hcg]
    exact countP_mem_range data.hoys 8760 hnd hlt
  · intro hfull i hi
    have hfin : data.hoys.toFinset = Finset.range 8760 := by
      apply Finset.eq_of_subset_of_card_le
      · intro x hx
        exact Finset.mem_range.mpr (hlt x (List.mem_toFinset.mp hx))
      · rw [List.toFinset_card_of_nodup hnd, Finset.card_range, hfull]
    have hmem : i ∈ data.hoys := by
      rw [← List.mem_toFinset, hfin]
      exact Finset.mem_range.mpr hi
    dsimp only
    rw [getD_map_range _ _ hi]
    have hiff := lookup_isSome_iff_mem (data.hoys.zip data.values) i
    rw [hkeys] at hiff
    exact hiff.mpr hmem

/-- Witness for C1 at the concrete scenario of the spec (slots 0 and 100 carrying
10.0 and 20.0). -/
theorem gap_filler_completeness_witness :
    (sampleSparse.hoys.Nodup ∧ (∀ h ∈ sampleSparse.hoys, h < 8760) ∧
      sampleSparse.hoys.length = sampleSparse.values.length ∧
      sampleSparse.values ≠ []) ∧
    (∃ out rng,
      discontinuous_to_continuous sampleSparse = Except.ok (out, rng) ∧
      out.values.length = 8760 ∧
      (∀ (n : Nat) (hn : n < sampleSparse.hoys.length),
        out.values.getD (sampleSparse.hoys.get ⟨n, hn⟩) none =
          some (sampleSparse.values.getD n 0)) ∧
      (∀ i < 8760, i ∉ sampleSparse.hoys → out.values.getD i none = none) ∧
      out.values.countP (fun o => o.isSome) = sampleSparse.hoys.length ∧
      (sampleSparse.hoys.length = 8760 → ∀ i < 8760,
        (out.values.getD i none).isSome = true)) :=
  ⟨⟨by decide, by decide, by decide, by decide⟩,
    gap_filler_completeness sampleSparse (by decide) (by decide) (by decide)
      (by decide)⟩

/-- C2: for every non-empty discontinuous series with distinct slots, the
range returned by the Gap-Filler is the min and max over only the present
input values, and it equals the result of the pre-fill range computation
alone (`series_range`), so filled slots never participate. -/
theorem gap_filler_range_prefill (data : HourlyDiscontinuousCollection)
    (hnd : data.hoys.Nodup)
    (hlen : data.hoys.length = data.values.length)
    (hne : data.values ≠ []) :
    ∃ out rng, discontinuous_to_continuous data = Except.ok (out, rng) ∧
      series_range data = Except.ok rng ∧
      ∃ mn mx, rng = [mn, mx] ∧
        mn ∈ data.values ∧ (∀ x ∈ data.values, mn ≤ x) ∧
        mx ∈ data.values ∧ (∀ x ∈ data.values, x ≤ mx) := by
  obtain ⟨v, vs, hv⟩ : ∃ v vs, data.values = v :: vs := by
    cases hvv : data.values with
    | nil => exact absurd hvv hne
    | cons a l => exact ⟨a, l, rfl⟩
  refine ⟨_, _, d2c_spec data hnd hlen v vs hv,
    series_range_spec data hnd hlen v vs hv,
    vs.foldl min v, vs.foldl max v, rfl, ?_, ?_, ?_, ?_⟩
  · rw [hv]
    exact foldl_min_mem vs v
  · intro x hx
    rw [hv] at hx
    exact foldl_min_le vs v x hx
  · rw [hv]
    exact foldl_max_mem vs v
  · intro x hx
    rw [hv] at hx
    exact le_foldl_max vs v x hx

/-- Witness for C2 at the concrete two-slot scenario: range [10, 20]. -/
theorem gap_filler_range_prefill_witness :
    (sampleSparse.hoys.Nodup ∧
      sampleSparse.hoys.length = sampleSparse.values.length ∧
      sampleSparse.values ≠ []) ∧
    (∃ out rng,
      discontinuous_to_continuous sampleSparse = Except.ok (out, rng) ∧
      series_range sampleSparse = Except.ok rng ∧
      ∃ mn mx, rng = [mn, mx] ∧
        mn ∈ sampleSparse.values ∧ (∀ x ∈ sampleSparse.values, mn ≤ x) ∧
        mx ∈ sampleSparse.values ∧ (∀ x ∈ sampleSparse.values, x ≤ mx)) :=
  ⟨⟨by decide, by decide, by decide⟩,
    gap_filler_range_prefill sampleSparse (by decide) (by decide) (by decide)⟩

/-- C8: on an empty discontinuous input (zero present slots) the Gap-Filler
fails at the min/max computation with the empty-sequence `ValueError` (the
`EmptySeries`-class error of the spec) and produces no collection. -/
theorem gap_filler_empty_fails (data : HourlyDiscontinuousCollection)
    (h : data.hoys = []) :
    discontinuous_to_continuous data = Except.error emptySeriesMsg := by
  unfold discontinuous_to_continuous hoyVal
  rw [h]
  rfl

/-- Witness for C8: an empty collection indeed errors. -/
theorem gap_filler_empty_fails_witness :
    (⟨sampleHeader, [], []⟩ : HourlyDiscontinuousCollection).hoys = [] ∧
    discontinuous_to_continuous ⟨sampleHeader, [], []⟩ =
      Except.error emptySeriesMsg :=
  ⟨by decide, gap_filler_empty_fails ⟨sampleHeader, [], []⟩ rfl⟩

/-- C10: whenever the Gap-Filler succeeds, the output header keeps the data
type, unit and metadata of the input header unchanged but carries a freshly
constructed default full-year `AnalysisPeriod`, whatever period the input
had. -/
theorem gap_filler_header_effect (data : HourlyDiscontinuousCollection)
    (out : HourlyContinuousCollection) (rng : List ℚ)
    (hok : discontinuous_to_continuous data = Except.ok (out, rng)) :
    out.header.data_type = data.header.data_type ∧
    out.header.unit = data.header.unit ∧
    out.header.metadata = data.header.metadata ∧
    out.header.analysis_period = AnalysisPeriod.default := by
  simp only [discontinuous_to_continuous] at hok
  cases hcase : (hoyVal data).map Prod.snd with
  | nil =>
    rw [hcase] at hok
    exact absurd hok (by simp)
  | cons v vs =>
    rw [hcase] at hok
    simp only [Except.ok.injEq, Prod.mk.injEq] at hok
    obtain ⟨h1, -⟩ := hok
    rw [← h1]
    exact ⟨rfl, rfl, rfl, rfl⟩

/-- Witness for C10 on a collection whose input period is the non-default
June-July window: the output period is still the default full year. -/
theorem gap_filler_header_effect_witness :
    ∃ out rng,
      discontinuous_to_continuous sampleSparse = Except.ok (out, rng) ∧
      (out.header.data_type = sampleSparse.header.data_type ∧
        out.header.unit = sampleSparse.header.unit ∧
        out.header.metadata = sampleSparse.header.metadata ∧
        out.header.analysis_period = AnalysisPeriod.default) := by
  have hok := d2c_spec sampleSparse (by decide) (by decide) 10 [20] rfl
  exact ⟨_, _, hok, gap_filler_header_effect sampleSparse _ _ hok⟩

/-- C7: for a monthly-per-hour collection (288 values), `get_monthly_values`
returns exactly 12 buckets, each an ordered list of exactly 24 values, bucket
`i` holding the input values at flat indices `24*i .. 24*i+23` in hour order. -/
theorem get_monthly_values_shape (values : List ℚ)
    (_h : values.length = 288) :
    (get_monthly_values values).length = 12 ∧
    (∀ i < 12, ((get_monthly_values values).getD i []).length = 24) ∧
    (∀ i < 12, ∀ j < 24,
      ((get_monthly_values values).getD i []).getD j 0 =
        values.getD (24 * i + j) 0) := by
  refine ⟨by simp [get_monthly_values], ?_, ?_⟩
  · intro i hi
    unfold get_monthly_values
    rw [getD_map_range _ _ hi]
    simp
  · intro i hi j hj
    unfold get_monthly_values
    rw [getD_map_range _ _ hi, getD_map_range _ _ hj]
    have harith : 24 * (i + 1) - 24 + j = 24 * i + j := by omega
    rw [harith]

/-- Witness for C7 on the 288-value ramp. -/
theorem get_monthly_values_shape_witness :
    ramp288.length = 288 ∧
    ((get_monthly_values ramp288).length = 12 ∧
      (∀ i < 12, ((get_monthly_values ramp288).getD i []).length = 24) ∧
      (∀ i < 12, ∀ j < 24,
        ((get_monthly_values ramp288).getD i []).getD j 0 =
          ramp288.getD (24 * i + j) 0)) :=
  ⟨by simp only [ramp288, List.length_map, List.length_range],
    get_monthly_values_shape _
      (by simp only [ramp288, List.length_map, List.length_range])⟩

/-! ### Wind-rose Binner: filter lemmas -/

theorem monthOfDoy_bounds (d : Nat) :
    1 ≤ monthOfDoy d ∧ monthOfDoy d ≤ 12 := by
  unfold monthOfDoy
  repeat' split
  all_goals omega

theorem hourOfHoy_le (t : Nat) : hourOfHoy t ≤ 23 := by
  have := Nat.mod_lt t (show 0 < 24 by omega)
  unfold hourOfHoy
  omega

theorem mem_filteredIdx {w : Window} {t : Nat} :
    t ∈ filteredIdx w ↔
      t < 8760 ∧ monthKeep w (monthOfHoy t) = true ∧
        hourKeep w (hourOfHoy t) = true := by
  unfold filteredIdx
  simp only [List.mem_filter, List.mem_range]
  tauto

/-- C6: the month and hour filters are inclusive and wrap: any wrapping month
window `[sm, em]` with `em < sm` selects exactly the union of the two
non-wrapping windows `[sm, 12]` and `[1, em]` (so `[11, 2]` is the union of
`[11, 12]` and `[1, 2]`), and analogously any wrapping hour window `[sh, eh]`
selects the union of `[sh, 23]` and `[0, eh]`. -/
theorem wind_rose_filter_wrap (t sm em sh eh : Nat) :
    (1 ≤ em → sm ≤ 12 → em < sm →
      (t ∈ filteredIdx ⟨sm, em, sh, eh⟩ ↔
        t ∈ filteredIdx ⟨sm, 12, sh, eh⟩ ∨ t ∈ filteredIdx ⟨1, em, sh, eh⟩)) ∧
    (sh ≤ 23 → eh < sh →
      (t ∈ filteredIdx ⟨sm, em, sh, eh⟩ ↔
        t ∈ filteredIdx ⟨sm, em, sh, 23⟩ ∨ t ∈ filteredIdx ⟨sm, em, 0, eh⟩)) := by
  have hmb := monthOfDoy_bounds (t / 24)
  have hhb := hourOfHoy_le t
  constructor
  · intro h1 h2 h3
    simp only [mem_filteredIdx, monthKeep, hourKeep, monthOfHoy]
    rw [if_neg (by omega : ¬sm ≤ em), if_pos h2, if_pos h1]
    simp only [Bool.and_eq_true, Bool.or_eq_true, decide_eq_true_eq]
    constructor
    · rintro ⟨ht, hm, hh⟩
      rcases hm with hm | hm
      · exact Or.inr ⟨ht, ⟨by omega, by omega⟩, hh⟩
      · exact Or.inl ⟨ht, ⟨by omega, by omega⟩, hh⟩
    · rintro (⟨ht, ⟨hma, hmb'⟩, hh⟩ | ⟨ht, ⟨hma, hmb'⟩, hh⟩)
      · exact ⟨ht, Or.inr (by omega), hh⟩
      · exact ⟨ht, Or.inl (by omega), hh⟩
  · intro h1 h2
    simp only [mem_filteredIdx, monthKeep, hourKeep]
    rw [if_neg (by omega : ¬sh ≤ eh), if_pos h1,
      if_pos (by omega : 0 ≤ eh)]
    simp only [Bool.and_eq_true, Bool.or_eq_true, decide_eq_true_eq]
    constructor
    · rintro ⟨ht, hm, hh⟩
      rcases hh with hh | hh
      · exact Or.inr ⟨ht, hm, by omega, by omega⟩
      · exact Or.inl ⟨ht, hm, by omega, by omega⟩
    · rintro (⟨ht, hm, hha, hhb'⟩ | ⟨ht, hm, hha, hhb'⟩)
      · exact ⟨ht, hm, Or.inr (by omega)⟩
      · exact ⟨ht, hm, Or.inl (by omega)⟩

/-- Witness for C6 at hour 0 of January 1 (row 0): the wrapping November to
February window and the wrapping 22h to 5h window both keep it, as do their
non-wrapping decompositions. -/
theorem wind_rose_filter_wrap_witness :
    ((0 ∈ filteredIdx ⟨11, 2, 0, 23⟩ ↔
      0 ∈ filteredIdx ⟨11, 12, 0, 23⟩ ∨ 0 ∈ filteredIdx ⟨1, 2, 0, 23⟩)) ∧
    ((0 ∈ filteredIdx ⟨11, 2, 22, 5⟩ ↔
      0 ∈ filteredIdx ⟨11, 2, 22, 23⟩ ∨ 0 ∈ filteredIdx ⟨11, 2, 0, 5⟩)) :=
  ⟨(wind_rose_filter_wrap 0 11 2 0 23).1 (by decide) (by decide) (by decide),
    (wind_rose_filter_wrap 0 11 2 22 5).2 (by decide) (by decide)⟩

theorem filteredIdx_full : filteredIdx fullWindow = List.range 8760 := by
  unfold filteredIdx
  have h1 : (List.range 8760).filter
      (fun t => monthKeep fullWindow (monthOfHoy t)) = List.range 8760 := by
    rw [List.filter_eq_self]
    intro t _
    have := monthOfDoy_bounds (t / 24)
    simp only [monthKeep, fullWindow, monthOfHoy]
    rw [if_pos (by omega : (1 : Nat) ≤ 12)]
    simp only [Bool.and_eq_true, decide_eq_true_eq]
    omega
  rw [h1, List.filter_eq_self]
  intro t _
  have := hourOfHoy_le t
  simp only [hourKeep, fullWindow]
  rw [if_pos (by omega : (0 : Nat) ≤ 23)]
  simp only [Bool.and_eq_true, decide_eq_true_eq]
  omega

theorem totalCount_full : totalCount fullWindow = 8760 := by
  unfold totalCount
  rw [filteredIdx_full, List.length_range]

theorem exists_hoy (M H : Nat) (h1 : 1 ≤ M) (h2 : M ≤ 12) (hH : H ≤ 23) :
    ∃ t, t < 8760 ∧ monthOfHoy t = M ∧ hourOfHoy t = H := by
  refine ⟨monthStartDoy M * 24 + H, ?_, ?_, ?_⟩
  · have : monthStartDoy M ≤ 334 := by
      interval_cases M <;> simp [monthStartDoy]
    omega
  · unfold monthOfHoy
    have hdiv : (monthStartDoy M * 24 + H) / 24 = monthStartDoy M := by omega
    rw [hdiv]
    interval_cases M <;> decide
  · unfold hourOfHoy
    omega

/-- Amended C9: a month/hour window satisfying the `AnalysisPeriod`
invariants (months 1..12, hours 0..23, inclusive, possibly wrapping) always
retains at least one of the 8760 observations, so the percentage division
never sees a zero count and every table cell is a well-defined number; the
code raises no `EmptyFilterResult`-style error anywhere. -/
theorem wind_rose_filter_never_empty (speed dir : Nat → ℚ) (w : Window)
    (hw : validWindow w) :
    totalCount w ≠ 0 ∧
      ∀ i j : Nat, (roseCell speed dir w i j).isSome = true := by
  obtain ⟨h1, h2, h3, h4, h5, h6⟩ := hw
  have key : totalCount w ≠ 0 := by
    have hM : ∃ M, 1 ≤ M ∧ M ≤ 12 ∧ monthKeep w M = true := by
      by_cases hc : w.st_month ≤ w.end_month
      · refine ⟨w.st_month, h1, h2, ?_⟩
        simp only [monthKeep, if_pos hc, Bool.and_eq_true, decide_eq_true_eq]
        omega
      · refine ⟨12, by omega, le_refl 12, ?_⟩
        simp only [monthKeep, if_neg hc, Bool.or_eq_true, decide_eq_true_eq]
        omega
    have hHk : ∃ H, H ≤ 23 ∧ hourKeep w H = true := by
      by_cases hc : w.st_hour ≤ w.end_hour
      · refine ⟨w.st_hour, h5, ?_⟩
        simp only [hourKeep, if_pos hc, Bool.and_eq_true, decide_eq_true_eq]
        omega
      · refine ⟨23, le_refl 23, ?_⟩
        simp only [hourKeep, if_neg hc, Bool.or_eq_true, decide_eq_true_eq]
        omega
    obtain ⟨M, hM1, hM2, hMk⟩ := hM
    obtain ⟨H, hH1, hHkeep⟩ := hHk
    obtain ⟨t, ht, hmo, hho⟩ := exists_hoy M H hM1 hM2 hH1
    have hmem : t ∈ filteredIdx w :=
      mem_filteredIdx.mpr ⟨ht, by rw [hmo]; exact hMk, by rw [hho]; exact hHkeep⟩
    unfold totalCount
    intro h0
    rw [List.length_eq_zero] at h0
    rw [h0] at hmem
    exact List.not_mem_nil t hmem
  refine ⟨key, fun i j => ?_⟩
  unfold roseCell
  rw [if_neg key]
  by_cases hj : j = 0 <;> simp [hj]

/-- Witness for the amended C9 at the full-year window. -/
theorem wind_rose_filter_never_empty_witness :
    validWindow fullWindow ∧
    (totalCount fullWindow ≠ 0 ∧
      ∀ i j : Nat,
        (roseCell (fun _ => 0) (fun _ => 0) fullWindow i j).isSome = true) :=
  ⟨⟨by decide, by decide, by decide, by decide, by decide, by decide⟩,
    wind_rose_filter_never_empty (fun _ => 0) (fun _ => 0) fullWindow
      ⟨by decide, by decide, by decide, by decide, by decide, by decide⟩⟩

/-- Counterexample to C9 as stated: a window that eliminates every
observation (expressible only outside the `AnalysisPeriod` invariants, here
months [13, 13]) makes the Binner return a definite table rather than fail:
the division by the zero total silently yields non-numbers (float `NaN`,
modelled `none`); no `EmptyFilterResult` error exists in the code. -/
theorem wind_rose_empty_filter_counterexample :
    filteredIdx ⟨13, 13, 0, 23⟩ = [] ∧
    totalCount ⟨13, 13, 0, 23⟩ = 0 ∧
    roseCell (fun _ => 0) (fun _ => 0) ⟨13, 13, 0, 23⟩ 0 0 = none := by
  have hf : filteredIdx ⟨13, 13, 0, 23⟩ = [] := by
    unfold filteredIdx
    have h1 : (List.range 8760).filter
        (fun t => monthKeep ⟨13, 13, 0, 23⟩ (monthOfHoy t)) = [] := by
      rw [List.filter_eq_nil_iff]
      intro t _
      have := monthOfDoy_bounds (t / 24)
      simp only [monthKeep, monthOfHoy, if_pos (le_refl 13),
        Bool.and_eq_true, decide_eq_true_eq]
      omega
    rw [h1]
    rfl
  refine ⟨hf, ?_, ?_⟩ <;> simp [totalCount, roseCell, hf]

/-- C5 (the code as it stands): `dirBinIdx` does produce the sixteen
left-closed 22.5-degree bins for directions below 348.75, but directions in
[348.75, 360] fall in no bin at all instead of wrapping into the North bin:
an observation at 355 degrees and speed 5 lands in no cell of the table (its
calm cell and its would-be speed-bin cell both stay zero), and the
`replace({360: 0})` fold-back never fires because no bin is labelled 360. -/
theorem wind_rose_direction_wrap_bug :
    dirBinIdx 0 = some 0 ∧ dirBinIdx (45/4 : ℚ) = some 1 ∧
    dirBinIdx (1394/4 : ℚ) = some 15 ∧
    dirBinIdx (1395/4 : ℚ) = none ∧
    dirBinIdx 355 = none ∧ dirBinIdx 360 = none ∧
    spdBinIdx 5 = some 3 ∧
    roseCell (fun _ => 5) (fun _ => 355) fullWindow 0 0 = some 0 ∧
    roseCell (fun _ => 5) (fun _ => 355) fullWindow 0 3 = some 0 := by
  have htot : totalCount fullWindow ≠ 0 := by
    rw [totalCount_full]
    omega
  have h50 : ((5 : ℚ) == 0) = false := by
    rw [beq_eq_false_iff_ne]
    norm_num
  have hd355 : dirBinIdx 355 = none := by norm_num [dirBinIdx]
  have hcalm : calmCount (fun _ => (5 : ℚ)) fullWindow = 0 :=
    List.countP_eq_zero.mpr (fun t _ => by simp [calmCount, h50])
  have hcell : cellCount (fun _ => (5 : ℚ)) (fun _ => (355 : ℚ))
      fullWindow 0 3 = 0 :=
    List.countP_eq_zero.mpr (fun t _ => by simp [hd355])
  refine ⟨by norm_num [dirBinIdx], by norm_num [dirBinIdx],
    by norm_num [dirBinIdx], by norm_num [dirBinIdx], hd355,
    by norm_num [dirBinIdx], by norm_num [spdBinIdx], ?_, ?_⟩
  · unfold roseCell
    rw [if_neg htot, if_pos rfl, hcalm]
    norm_num
  · unfold roseCell
    rw [if_neg htot, if_neg (by omega : (3 : Nat) ≠ 0), hcell]
    norm_num

/-- C3: the calm cell of every direction-bin row equals
`calm_count / 16 / total * 100` — the filtered zero-speed count spread evenly
over the 16 rows — and in the all-zero concrete scenario the calm
cell of every row is 6.25 percent while every non-calm speed-bin cell is zero. -/
theorem wind_rose_calm_spread (speed dir : Nat → ℚ) (w : Window)
    (h : totalCount w ≠ 0) :
    (∀ i < 16, roseCell speed dir w i 0 =
      some ((calmCount speed w : ℚ) / numDirRows / totalCount w * 100)) ∧
    (∀ i < 16,
      roseCell (fun _ => 0) (fun _ => 0) fullWindow i 0 = some (25/4) ∧
      ∀ j, 1 ≤ j → j < 10 →
        roseCell (fun _ => 0) (fun _ => 0) fullWindow i j = some 0) := by
  have htot : totalCount fullWindow ≠ 0 := by
    rw [totalCount_full]
    omega
  have hs0 : spdBinIdx 0 = some 0 := by norm_num [spdBinIdx]
  have hcalmz : calmCount (fun _ => (0 : ℚ)) fullWindow = 8760 := by
    unfold calmCount
    rw [List.countP_eq_length.mpr (fun t _ => by simp)]
    rw [filteredIdx_full, List.length_range]
  constructor
  · intro i _
    unfold roseCell
    rw [if_neg h, if_pos rfl]
  · intro i _
    constructor
    · unfold roseCell
      rw [if_neg htot, if_pos rfl, hcalmz, totalCount_full]
      norm_num [numDirRows]
    · intro j hj1 hj2
      have hcell : cellCount (fun _ => (0 : ℚ)) (fun _ => (0 : ℚ))
          fullWindow i j = 0 := by
        apply List.countP_eq_zero.mpr
        intro t _
        simp only [hs0, Bool.and_eq_true, beq_iff_eq, Option.some.injEq]
        rintro ⟨hj0, -⟩
        omega
      unfold roseCell
      rw [if_neg htot, if_neg (by omega : ¬j = 0), hcell, totalCount_full]
      norm_num

/-- Witness for C3 at the all-zero scenario over the full-year window. -/
theorem wind_rose_calm_spread_witness :
    totalCount fullWindow ≠ 0 ∧
    ((∀ i < 16, roseCell (fun _ => 0) (fun _ => 0) fullWindow i 0 =
        some ((calmCount (fun _ => (0 : ℚ)) fullWindow : ℚ) / numDirRows /
          totalCount fullWindow * 100)) ∧
      (∀ i < 16,
        roseCell (fun _ => 0) (fun _ => 0) fullWindow i 0 = some (25/4) ∧
        ∀ j, 1 ≤ j → j < 10 →
          roseCell (fun _ => 0) (fun _ => 0) fullWindow i j = some 0)) :=
  ⟨by rw [totalCount_full]; omega,
    wind_rose_calm_spread (fun _ => 0) (fun _ => 0) fullWindow
      (by rw [totalCount_full]; omega)⟩

/-! ### Speed and direction bin characterizations -/

theorem spdBin_of_le_half (v : ℚ) (h : v ≤ 1/2) :
    spdBinIdx v = none ∨ spdBinIdx v = some 0 := by
  unfold spdBinIdx
  rcases le_or_lt v (-1) with h1 | h1
  · left
    rw [if_pos h1]
  · right
    rw [if_neg (not_le.mpr h1), if_pos h]

theorem spdBin_of_half_lt (v : ℚ) (h : 1/2 < v) :
    ∃ j, spdBinIdx v = some j ∧ 1 ≤ j ∧ j < 10 := by
  unfold spdBinIdx
  rw [if_neg (by linarith), if_neg (not_le.mpr h)]
  rcases le_or_lt v (3/2) with h3 | h3
  · rw [if_pos h3]
    exact ⟨1, rfl, by omega, by omega⟩
  rw [if_neg (not_le.mpr h3)]
  rcases le_or_lt v (33/10) with h4 | h4
  · rw [if_pos h4]
    exact ⟨2, rfl, by omega, by omega⟩
  rw [if_neg (not_le.mpr h4)]
  rcases le_or_lt v (11/2) with h5 | h5
  · rw [if_pos h5]
    exact ⟨3, rfl, by omega, by omega⟩
  rw [if_neg (not_le.mpr h5)]
  rcases le_or_lt v (79/10) with h6 | h6
  · rw [if_pos h6]
    exact ⟨4, rfl, by omega, by omega⟩
  rw [if_neg (not_le.mpr h6)]
  rcases le_or_lt v (107/10) with h7 | h7
  · rw [if_pos h7]
    exact ⟨5, rfl, by omega, by omega⟩
  rw [if_neg (not_le.mpr h7)]
  rcases le_or_lt v (69/5) with h8 | h8
  · rw [if_pos h8]
    exact ⟨6, rfl, by omega, by omega⟩
  rw [if_neg (not_le.mpr h8)]
  rcases le_or_lt v (171/10) with h9 | h9
  · rw [if_pos h9]
    exact ⟨7, rfl, by omega, by omega⟩
  rw [if_neg (not_le.mpr h9)]
  rcases le_or_lt v (207/10) with h10 | h10
  · rw [if_pos h10]
    exact ⟨8, rfl, by omega, by omega⟩
  rw [if_neg (not_le.mpr h10)]
  exact ⟨9, rfl, by omega, by omega⟩

theorem dirBin_of_out_low (v : ℚ) (h : v < -45/4) : dirBinIdx v = none := by
  unfold dirBinIdx
  rw [if_pos h]

theorem dirBin_of_out_high (v : ℚ) (h : 1395/4 ≤ v) : dirBinIdx v = none := by
  unfold dirBinIdx
  rw [if_neg (by linarith), if_neg (by linarith), if_neg (by linarith),
    if_neg (by linarith), if_neg (by linarith), if_neg (by linarith),
    if_neg (by linarith), if_neg (by linarith), if_neg (by linarith),
    if_neg (by linarith), if_neg (by linarith), if_neg (by linarith),
    if_neg (by linarith), if_neg (by linarith), if_neg (by linarith),
    if_neg (by linarith), if_neg (not_lt.mpr h)]

theorem dirBin_of_in (v : ℚ) (h1 : -45/4 ≤ v) (h2 : v < 1395/4) :
    ∃ i, dirBinIdx v = some i ∧ i < 16 := by
  unfold dirBinIdx
  rw [if_neg (not_lt.mpr h1)]
  rcases lt_or_le v (45/4) with h | h
  · rw [if_pos h]
    exact ⟨0, rfl, by omega⟩
  rw [if_neg (not_lt.mpr h)]
  rcases lt_or_le v (135/4) with h3 | h3
  · rw [if_pos h3]
    exact ⟨1, rfl, by omega⟩
  rw [if_neg (not_lt.mpr h3)]
  rcases lt_or_le v (225/4) with h4 | h4
  · rw [if_pos h4]
    exact ⟨2, rfl, by omega⟩
  rw [if_neg (not_lt.mpr h4)]
  rcases lt_or_le v (315/4) with h5 | h5
  · rw [if_pos h5]
    exact ⟨3, rfl, by omega⟩
  rw [if_neg (not_lt.mpr h5)]
  rcases lt_or_le v (405/4) with h6 | h6
  · rw [if_pos h6]
    exact ⟨4, rfl, by omega⟩
  rw [if_neg (not_lt.mpr h6)]
  rcases lt_or_le v (495/4) with h7 | h7
  · rw [if_pos h7]
    exact ⟨5, rfl, by omega⟩
  rw [if_neg (not_lt.mpr h7)]
  rcases lt_or_le v (585/4) with h8 | h8
  · rw [if_pos h8]
    exact ⟨6, rfl, by omega⟩
  rw [if_neg (not_lt.mpr h8)]
  rcases lt_or_le v (675/4) with h9 | h9
  · rw [if_pos h9]
    exact ⟨7, rfl, by omega⟩
  rw [if_neg (not_lt.mpr h9)]
  rcases lt_or_le v (765/4) with h10 | h10
  · rw [if_pos h10]
    exact ⟨8, rfl, by omega⟩
  rw [if_neg (not_lt.mpr h10)]
  rcases lt_or_le v (855/4) with h11 | h11
  · rw [if_pos h11]
    exact ⟨9, rfl, by omega⟩
  rw [if_neg (not_lt.mpr h11)]
  rcases lt_or_le v (945/4) with h12 | h12
  · rw [if_pos h12]
    exact ⟨10, rfl, by omega⟩
  rw [if_neg (not_lt.mpr h12)]
  rcases lt_or_le v (1035/4) with h13 | h13
  · rw [if_pos h13]
    exact ⟨11, rfl, by omega⟩
  rw [if_neg (not_lt.mpr h13)]
  rcases lt_or_le v (1125/4) with h14 | h14
  · rw [if_pos h14]
    exact ⟨12, rfl, by omega⟩
  rw [if_neg (not_lt.mpr h14)]
  rcases lt_or_le v (1215/4) with h15 | h15
  · rw [if_pos h15]
    exact ⟨13, rfl, by omega⟩
  rw [if_neg (not_lt.mpr h15)]
  rcases lt_or_le v (1305/4) with h16 | h16
  · rw [if_pos h16]
    exact ⟨14, rfl, by omega⟩
  rw [if_neg (not_lt.mpr h16), if_pos h2]
  exact ⟨15, rfl, by omega⟩

/-! ### Closure of the frequency table (C4) -/

/-- Per-observation accounting: a single observation contributes one count to
the non-calm region of the table exactly when its speed is above 0.5 and its
direction falls inside some direction bin. -/
theorem cell_indicator (s d : ℚ) :
    (∑ i ∈ Finset.range 16, ∑ j ∈ Finset.range 9,
        (if (spdBinIdx s == some (j + 1)) && (dirBinIdx d == some i)
          then (1 : ℕ) else 0)) =
      (if decide (1/2 < s) && decide (-45/4 ≤ d) && decide (d < 1395/4)
        then 1 else 0) := by
  by_cases hs : 1/2 < s
  · by_cases hd1 : -45/4 ≤ d
    · by_cases hd2 : d < 1395/4
      · obtain ⟨j0, hj0eq, hj0a, hj0b⟩ := spdBin_of_half_lt s hs
        obtain ⟨i0, hi0eq, hi0b⟩ := dirBin_of_in d hd1 hd2
        rw [if_pos (by
          simp only [Bool.and_eq_true, decide_eq_true_eq]
          exact ⟨⟨hs, hd1⟩, hd2⟩)]
        simp only [hj0eq, hi0eq, Bool.and_eq_true, beq_iff_eq,
          Option.some.injEq]
        have hsplit : ∀ i j : Nat,
            (if j0 = j + 1 ∧ i0 = i then (1 : ℕ) else 0) =
              (if j0 = j + 1 then 1 else 0) * (if i0 = i then 1 else 0) := by
          intro i j
          by_cases hA : j0 = j + 1 <;> by_cases hB : i0 = i <;>
            simp [hA, hB]
        have hjsum : ∑ j ∈ Finset.range 9,
            (if j0 = j + 1 then (1 : ℕ) else 0) = 1 := by
          rw [Finset.sum_eq_single (j0 - 1)]
          · rw [if_pos (by omega)]
          · intro b _ hb
            rw [if_neg (by omega)]
          · intro hb
            exact absurd (Finset.mem_range.mpr (by omega)) hb
        have hisum : ∑ i ∈ Finset.range 16,
            (if i0 = i then (1 : ℕ) else 0) = 1 := by
          rw [Finset.sum_eq_single i0]
          · rw [if_pos rfl]
          · intro b _ hb
            rw [if_neg (by omega)]
          · intro hb
            exact absurd (Finset.mem_range.mpr hi0b) hb
        calc ∑ i ∈ Finset.range 16, ∑ j ∈ Finset.range 9,
              (if j0 = j + 1 ∧ i0 = i then (1 : ℕ) else 0)
            = ∑ i ∈ Finset.range 16,
                ((∑ j ∈ Finset.range 9, (if j0 = j + 1 then (1 : ℕ) else 0)) *
                  (if i0 = i then 1 else 0)) := by
              refine Finset.sum_congr rfl (fun i _ => ?_)
              rw [Finset.sum_mul]
              exact Finset.sum_congr rfl (fun j _ => hsplit i j)
          _ = 1 := by
              simp only [hjsum, one_mul]
              exact hisum
      · have hd : dirBinIdx d = none := dirBin_of_out_high d (by linarith)
        rw [if_neg (by
          simp only [Bool.and_eq_true, decide_eq_true_eq]
          rintro ⟨-, hc⟩
          exact hd2 hc)]
        refine Finset.sum_eq_zero (fun i _ => Finset.sum_eq_zero (fun j _ => ?_))
        simp [hd]
    · have hd : dirBinIdx d = none := dirBin_of_out_low d (by linarith)
      rw [if_neg (by
        simp only [Bool.and_eq_true, decide_eq_true_eq]
        rintro ⟨⟨-, hc⟩, -⟩
        exact hd1 hc)]
      refine Finset.sum_eq_zero (fun i _ => Finset.sum_eq_zero (fun j _ => ?_))
      simp [hd]
  · rw [if_neg (by
      simp only [Bool.and_eq_true, decide_eq_true_eq]
      rintro ⟨⟨hc, -⟩, -⟩
      exact hs hc)]
    refine Finset.sum_eq_zero (fun i _ => Finset.sum_eq_zero (fun j _ => ?_))
    rcases spdBin_of_le_half s (by linarith) with hb | hb <;> simp [hb]

/-- Summing per-cell counts over the table equals counting with the combined
per-observation predicate, provided each observation contributes exactly its
indicator. -/
theorem sum_countP_eq (p : Nat → Nat → Nat → Bool) (q : Nat → Bool)
    (hpt : ∀ t : Nat,
      (∑ i ∈ Finset.range 16, ∑ j ∈ Finset.range 9,
        (if p i j t then (1 : ℕ) else 0)) = (if q t then 1 else 0)) :
    ∀ l : List Nat,
      (∑ i ∈ Finset.range 16, ∑ j ∈ Finset.range 9, l.countP (p i j)) =
        l.countP q := by
  intro l
  induction l with
  | nil => simp
  | cons t l ih =>
    simp only [List.countP_cons, Finset.sum_add_distrib]
    rw [ih, hpt t]

/-- Amended C4: the whole-table percentage sum (calm column included) equals
100 percent of the retained observations only: those with speed exactly 0 or
with speed above 0.5 and direction inside [-11.25, 348.75).  Observations
with speed in (0, 0.5] or direction in [348.75, 360] are silently dropped. -/
theorem wind_rose_closure_amended (speed dir : Nat → ℚ) (w : Window)
    (h : totalCount w ≠ 0) :
    tableSum speed dir w =
      100 * (retainedCount speed dir w : ℚ) / totalCount w := by
  have hsplitsum : ∀ i, ∑ j ∈ Finset.range 10,
      (roseCell speed dir w i j).getD 0 =
        (∑ j ∈ Finset.range 9,
          (cellCount speed dir w i (j + 1) : ℚ) / totalCount w * 100) +
          (calmCount speed w : ℚ) / numDirRows / totalCount w * 100 := by
    intro i
    have hA : ∑ j ∈ Finset.range 9, (roseCell speed dir w i (j + 1)).getD 0 =
        ∑ j ∈ Finset.range 9,
          (cellCount speed dir w i (j + 1) : ℚ) / totalCount w * 100 :=
      Finset.sum_congr rfl (fun j _ => by
        unfold roseCell
        rw [if_neg h, if_neg (by omega : ¬j + 1 = 0)]
        rfl)
    have hB : (roseCell speed dir w i 0).getD 0 =
        (calmCount speed w : ℚ) / numDirRows / totalCount w * 100 := by
      unfold roseCell
      rw [if_neg h, if_pos rfl]
      rfl
    rw [Finset.sum_range_succ'
      (fun j => (roseCell speed dir w i j).getD 0) 9, hA, hB]
  have hcells : (∑ i ∈ Finset.range 16, ∑ j ∈ Finset.range 9,
      cellCount speed dir w i (j + 1)) =
        (filteredIdx w).countP (fun t =>
          decide (1/2 < speed t) && decide (-45/4 ≤ dir t) &&
            decide (dir t < 1395/4)) := by
    exact sum_countP_eq _ _ (fun t => cell_indicator (speed t) (dir t))
      (filteredIdx w)
  have hretained : retainedCount speed dir w =
      calmCount speed w + (filteredIdx w).countP (fun t =>
        decide (1/2 < speed t) && decide (-45/4 ≤ dir t) &&
          decide (dir t < 1395/4)) := by
    unfold retainedCount calmCount
    rw [countP_or_disjoint]
    intro t _ hx
    rcases hx with ⟨h1, h2⟩
    have h1' : speed t = 0 := beq_iff_eq.mp h1
    simp only [Bool.and_eq_true, decide_eq_true_eq] at h2
    rw [h1'] at h2
    have := h2.1.1
    norm_num at this
  have hfactor : ∀ (c : ℕ), (c : ℚ) / totalCount w * 100 =
      c * (100 / totalCount w) := by
    intro c
    ring
  have hT : (totalCount w : ℚ) ≠ 0 := Nat.cast_ne_zero.mpr h
  unfold tableSum
  simp only [hsplitsum]
  rw [Finset.sum_add_distrib, Finset.sum_const, Finset.card_range,
    hretained, ← hcells]
  simp only [numDirRows]
  push_cast
  simp only [hfactor]
  simp only [← Finset.sum_mul]
  field_simp
  ring

/-- Counterexample to C4 as stated: all 8760 observations have speed 0.3 and
direction 0; the filter retains all of them, yet the table (calm included)
sums to 0 percent, not 100: the 0.3 speeds sit in the bin labelled calm,
whose column is overwritten by `calm_count / 16 = 0`. -/
theorem wind_rose_closure_counterexample :
    totalCount fullWindow = 8760 ∧
    tableSum (fun _ => 3/10) (fun _ => 0) fullWindow = 0 := by
  refine ⟨totalCount_full, ?_⟩
  have hs : spdBinIdx (3/10) = some 0 := by norm_num [spdBinIdx]
  have htot : totalCount fullWindow ≠ 0 := by
    rw [totalCount_full]
    omega
  have hcalm : calmCount (fun _ => (3/10 : ℚ)) fullWindow = 0 := by
    apply List.countP_eq_zero.mpr
    intro t _
    simp only [beq_iff_eq]
    norm_num
  unfold tableSum
  refine Finset.sum_eq_zero (fun i _ => Finset.sum_eq_zero (fun j hj => ?_))
  unfold roseCell
  rw [if_neg htot]
  by_cases hj0 : j = 0
  · rw [if_pos hj0, hcalm]
    norm_num
  · rw [if_neg hj0]
    have hcell : cellCount (fun _ => (3/10 : ℚ)) (fun _ => (0 : ℚ))
        fullWindow i j = 0 := by
      apply List.countP_eq_zero.mpr
      intro t _
      simp only [hs, Bool.and_eq_true, beq_iff_eq, Option.some.injEq]
      rintro ⟨hc, -⟩
      exact hj0 hc.symm
    rw [hcell]
    norm_num

/-- Witness for the amended C4 at the all-zero scenario. -/
theorem wind_rose_closure_amended_witness :
    totalCount fullWindow ≠ 0 ∧
    tableSum (fun _ => 0) (fun _ => 0) fullWindow =
      100 * (retainedCount (fun _ => 0) (fun _ => 0) fullWindow : ℚ) /
        totalCount fullWindow :=
  ⟨by rw [totalCount_full]; omega,
    wind_rose_closure_amended (fun _ => 0) (fun _ => 0) fullWindow
      (by rw [totalCount_full]; omega)⟩

end LadybugCharts
